import Mathlib

/-!
Verification of the notes HTTP service (src/index.js): a CRUD service over
plain-text notes stored as individual files in a cache directory. The cache
directory is modelled as an association list of entries; each Express handler
becomes a function from the store and the request data to a response and the
new store. Filesystem calls that can throw return an Option.
-/

namespace NotesService

/-- A directory entry in the cache directory: a regular file with its text
content, or a subdirectory. -/
inductive Entry where
  | file (text : String) : Entry
  | dir : Entry
deriving DecidableEq, Repr

/-- The cache directory, modelled as its entries in filesystem enumeration
order: pairs of a base file name and the entry stored under that name. -/
abbrev Store := List (String × Entry)

/-- Look up the entry stored under a base name (first match). -/
def findEntry : Store → String → Option Entry
  | [], _ => none
  | (k, e) :: rest, p => if k = p then some e else findEntry rest p

/-- Model of fs.existsSync at a path inside the cache directory. -/
def existsSync (s : Store) (p : String) : Bool :=
  (findEntry s p).isSome

/-- Model of fs.readFileSync: the text of a regular file, or none when the
call throws (no entry at the path, or the entry is a directory). -/
def readFileSync (s : Store) (p : String) : Option String :=
  match findEntry s p with
  | some (Entry.file t) => some t
  | _ => none

/-- Replace the entry stored under a name, or append a fresh file entry when
the name is absent. -/
def writeEntry : Store → String → String → Store
  | [], p, t => [(p, Entry.file t)]
  | (k, e) :: rest, p, t =>
      if k = p then (p, Entry.file t) :: rest else (k, e) :: writeEntry rest p t

/-- Model of fs.writeFileSync: none models a throw (the data argument is
undefined, or the target is a directory). -/
def writeFileSync (s : Store) (p : String) (data : Option String) : Option Store :=
  match data with
  | none => none
  | some t =>
    match findEntry s p with
    | some Entry.dir => none
    | _ => some (writeEntry s p t)

/-- Remove the entry stored under a name (first match). -/
def removeEntry : Store → String → Store
  | [], _ => []
  | (k, e) :: rest, p => if k = p then rest else (k, e) :: removeEntry rest p

/-- Model of fs.unlinkSync: none models a throw (absent path, or the target
is a directory). -/
def unlinkSync (s : Store) (p : String) : Option Store :=
  match findEntry s p with
  | some (Entry.file _) => some (removeEntry s p)
  | _ => none

/-- JavaScript string coercion of a possibly-undefined form field, as in the
expression note_name + ".txt": undefined coerces to the string "undefined". -/
def jsString : Option String → String
  | some s => s
  | none => "undefined"

/-- The base file name every handler builds for a note name: name + ".txt". -/
def notePath (name : String) : String := name ++ ".txt"

/-- An HTTP response: status code and plain-text body. -/
structure Response where
  status : Nat
  body : String
deriving DecidableEq, Repr

/-- Handler of POST /write: reads the form fields note_name and note (either
may be absent), builds path.join(cache, note_name + ".txt"), answers 400 if a
file already exists there, otherwise writes the note and answers 201. A throw
inside the handler is caught by the framework and answered with 500. -/
def postWrite (s : Store) (note_name note : Option String) : Response × Store :=
  let filePath := notePath (jsString note_name)
  if existsSync s filePath then (⟨400, "Note already exists"⟩, s)
  else
    match writeFileSync s filePath note with
    | some s2 => (⟨201, "Note created"⟩, s2)
    | none => (⟨500, "Internal Server Error"⟩, s)

/-- Handler of GET /notes/:name: 404 when no file exists at
path.join(cache, name + ".txt"), otherwise the file content with 200. -/
def getNote (s : Store) (name : String) : Response × Store :=
  let filePath := notePath name
  if existsSync s filePath then
    match readFileSync s filePath with
    | some t => (⟨200, t⟩, s)
    | none => (⟨500, "Internal Server Error"⟩, s)
  else (⟨404, "Not Found"⟩, s)

/-- Handler of PUT /notes/:name: 404 when no file exists, otherwise the raw
request body overwrites the file and the handler answers 200. -/
def putNote (s : Store) (name : String) (body : String) : Response × Store :=
  let filePath := notePath name
  if existsSync s filePath then
    match writeFileSync s filePath (some body) with
    | some s2 => (⟨200, "Note updated"⟩, s2)
    | none => (⟨500, "Internal Server Error"⟩, s)
  else (⟨404, "Not Found"⟩, s)

/-- Handler of DELETE /notes/:name: 404 when no file exists, otherwise the
file is unlinked and the handler answers 200. -/
def deleteNote (s : Store) (name : String) : Response × Store :=
  let filePath := notePath name
  if existsSync s filePath then
    match unlinkSync s filePath with
    | some s2 => (⟨200, "Note deleted"⟩, s2)
    | none => (⟨500, "Internal Server Error"⟩, s)
  else (⟨404, "Not Found"⟩, s)

/-- Model of file.startsWith(c) for a one-character argument. -/
def startsWithChar (file : String) (c : Char) : Bool :=
  match file.data with
  | [] => false
  | x :: _ => x = c

/-- Drop through the first '.' of a reversed character list: what remains is
everything before the last '.' of the original string, reversed; none when
the string has no '.'. -/
def revDropExt : List Char → Option (List Char)
  | [] => none
  | c :: rest => if c = '.' then some rest else revDropExt rest

/-- Model of path.parse(file).name: the base name with its final extension
removed; a '.' at position 0 starts no extension, so a dotfile with no other
dot keeps its full name. -/
def parseName (file : String) : String :=
  match revDropExt file.data.reverse with
  | some base => if base = [] then file else String.mk base.reverse
  | none => file

/-- Body of the GET /notes handler: every entry that is a regular file and
whose name starts with neither '.' nor '_' contributes the pair of
path.parse(file).name and the file content, in enumeration order. -/
def listNotes (s : Store) : List (String × String) :=
  s.filterMap fun fe =>
    match fe with
    | (file, Entry.file text) =>
        if (!startsWithChar file '.') && (!startsWithChar file '_') then
          some (parseName file, text)
        else none
    | (_, Entry.dir) => none

/-- Handler of GET /notes: status 200 with the JSON array of notes (directory
enumeration of the modelled store never throws). -/
def getNotesList (s : Store) : Nat × List (String × String) :=
  (200, listNotes s)

/-- Split a relative path string on the '/' separator, accumulating the
current segment in reverse. -/
def splitSegsAux : List Char → List Char → List String
  | [], cur => [String.mk cur.reverse]
  | c :: rest, cur =>
      if c = '/' then String.mk cur.reverse :: splitSegsAux rest []
      else splitSegsAux rest (c :: cur)

/-- Split a relative path string into its '/'-separated segments. -/
def splitSegs (s : String) : List String := splitSegsAux s.data []

/-- One step of path.join normalization over segments: empty and "." segments
vanish, ".." pops the previous segment when one remains and is kept
otherwise. -/
def normStep (acc : List String) (seg : String) : List String :=
  if seg = "" ∨ seg = "." then acc
  else if seg = ".." then
    match acc.reverse with
    | [] => [".."]
    | last :: _ => if last = ".." then acc ++ [".."] else acc.dropLast
  else acc ++ [seg]

/-- Normalize a segment list as path.join does. -/
def normalizeSegs (segs : List String) : List String := segs.foldl normStep []

/-- Model of path.join(cache, rel) over segment lists: concatenate and
normalize. -/
def joinPath (cacheSegs : List String) (rel : String) : List String :=
  normalizeSegs (cacheSegs ++ splitSegs rel)

/-- The path built by each of the four note handlers:
path.join(cache, name + ".txt"). -/
def handlerPath (cacheSegs : List String) (name : String) : List String :=
  joinPath cacheSegs (notePath name)

/-- Whether a path lies inside a directory: the directory segments are an
initial run of the path segments. -/
def insideDir (dirSegs p : List String) : Bool :=
  p.take dirSegs.length == dirSegs

/-- The filesystem seen through resolved paths: entries keyed by the
normalized segment list that path.join produces, so two name strings that
normalize to the same path address the same entry, as they do on disk. -/
abbrev PathStore := List (List String × Entry)

/-- Look up the entry stored at a resolved path (first match). -/
def findEntryP : PathStore → List String → Option Entry
  | [], _ => none
  | (k, e) :: rest, p => if k = p then some e else findEntryP rest p

/-- Model of fs.existsSync at a resolved path. -/
def existsSyncP (fs : PathStore) (p : List String) : Bool :=
  (findEntryP fs p).isSome

/-- Model of fs.readFileSync at a resolved path: none when the call throws. -/
def readFileSyncP (fs : PathStore) (p : List String) : Option String :=
  match findEntryP fs p with
  | some (Entry.file t) => some t
  | _ => none

/-- Replace the entry at a resolved path, or append a fresh file entry. -/
def writeEntryP : PathStore → List String → String → PathStore
  | [], p, t => [(p, Entry.file t)]
  | (k, e) :: rest, p, t =>
      if k = p then (p, Entry.file t) :: rest else (k, e) :: writeEntryP rest p t

/-- Model of fs.writeFileSync at a resolved path: none models a throw. -/
def writeFileSyncP (fs : PathStore) (p : List String) (data : Option String) :
    Option PathStore :=
  match data with
  | none => none
  | some t =>
    match findEntryP fs p with
    | some Entry.dir => none
    | _ => some (writeEntryP fs p t)

/-- Remove the entry at a resolved path (first match). -/
def removeEntryP : PathStore → List String → PathStore
  | [], _ => []
  | (k, e) :: rest, p => if k = p then rest else (k, e) :: removeEntryP rest p

/-- Model of fs.unlinkSync at a resolved path: none models a throw. -/
def unlinkSyncP (fs : PathStore) (p : List String) : Option PathStore :=
  match findEntryP fs p with
  | some (Entry.file _) => some (removeEntryP fs p)
  | _ => none

/-- Handler of POST /write over the path-resolved filesystem: identical to
postWrite except that the file is addressed by the normalized result of
path.join(cache, note_name + ".txt"). -/
def postWriteP (fs : PathStore) (cacheSegs : List String)
    (note_name note : Option String) : Response × PathStore :=
  let filePath := handlerPath cacheSegs (jsString note_name)
  if existsSyncP fs filePath then (⟨400, "Note already exists"⟩, fs)
  else
    match writeFileSyncP fs filePath note with
    | some fs2 => (⟨201, "Note created"⟩, fs2)
    | none => (⟨500, "Internal Server Error"⟩, fs)

/-- Handler of PUT /notes/:name over the path-resolved filesystem. -/
def putNoteP (fs : PathStore) (cacheSegs : List String) (name body : String) :
    Response × PathStore :=
  let filePath := handlerPath cacheSegs name
  if existsSyncP fs filePath then
    match writeFileSyncP fs filePath (some body) with
    | some fs2 => (⟨200, "Note updated"⟩, fs2)
    | none => (⟨500, "Internal Server Error"⟩, fs)
  else (⟨404, "Not Found"⟩, fs)

/-- Handler of DELETE /notes/:name over the path-resolved filesystem. -/
def deleteNoteP (fs : PathStore) (cacheSegs : List String) (name : String) :
    Response × PathStore :=
  let filePath := handlerPath cacheSegs name
  if existsSyncP fs filePath then
    match unlinkSyncP fs filePath with
    | some fs2 => (⟨200, "Note deleted"⟩, fs2)
    | none => (⟨500, "Internal Server Error"⟩, fs)
  else (⟨404, "Not Found"⟩, fs)

/-- The filesystem invariant on a directory: entry names are pairwise
distinct. -/
def keysNodup (s : Store) : Prop :=
  (s.map Prod.fst).Nodup

instance (s : Store) : Decidable (keysNodup s) := by
  unfold keysNodup
  infer_instance

/-- An absent key has no entry. -/
theorem findEntry_eq_none_of_not_mem {s : Store} {p : String}
    (h : p ∉ s.map Prod.fst) : findEntry s p = none := by
  induction s with
  | nil => rfl
  | cons head rest ih =>
    obtain ⟨k, e⟩ := head
    have hk : ¬ (k = p) := fun hkp => h (by simp [hkp])
    have hrest : p ∉ rest.map Prod.fst := fun hm => h (by simp [hm])
    simp [findEntry, hk, ih hrest]

/-- After writeEntry, the written key holds the written file. -/
theorem findEntry_writeEntry_self (s : Store) (p t : String) :
    findEntry (writeEntry s p t) p = some (Entry.file t) := by
  induction s with
  | nil => simp [writeEntry, findEntry]
  | cons head rest ih =>
    obtain ⟨k, e⟩ := head
    by_cases hk : k = p
    · simp [writeEntry, hk, findEntry]
    · simp [writeEntry, hk, findEntry, ih]

/-- writeEntry leaves every other key unchanged. -/
theorem findEntry_writeEntry_ne (s : Store) {p q : String} (t : String)
    (hq : q ≠ p) : findEntry (writeEntry s p t) q = findEntry s q := by
  induction s with
  | nil => simp [writeEntry, findEntry, Ne.symm hq]
  | cons head rest ih =>
    obtain ⟨k, e⟩ := head
    by_cases hk : k = p
    · subst hk
      simp [writeEntry, findEntry, Ne.symm hq]
    · simp [writeEntry, hk, findEntry, ih]

/-- removeEntry leaves every other key unchanged. -/
theorem findEntry_removeEntry_ne (s : Store) {p q : String}
    (hq : q ≠ p) : findEntry (removeEntry s p) q = findEntry s q := by
  induction s with
  | nil => simp [removeEntry]
  | cons head rest ih =>
    obtain ⟨k, e⟩ := head
    by_cases hk : k = p
    · subst hk
      simp [removeEntry, findEntry, Ne.symm hq]
    · simp [removeEntry, hk, findEntry, ih]

/-- With pairwise-distinct names, removing a key leaves no entry for it. -/
theorem findEntry_removeEntry_self {s : Store} (p : String)
    (h : keysNodup s) : findEntry (removeEntry s p) p = none := by
  induction s with
  | nil => rfl
  | cons head rest ih =>
    obtain ⟨k, e⟩ := head
    have hnd : k ∉ rest.map Prod.fst ∧ keysNodup rest := by
      simpa [keysNodup, List.nodup_cons] using h
    by_cases hk : k = p
    · subst hk
      simp only [removeEntry, if_pos rfl]
      exact findEntry_eq_none_of_not_mem hnd.1
    · simp [removeEntry, hk, findEntry, ih hnd.2]

/-- The keys after writeEntry: unchanged when the key was present, the key
appended otherwise. -/
theorem keys_writeEntry (s : Store) (p t : String) :
    (writeEntry s p t).map Prod.fst =
      if p ∈ s.map Prod.fst then s.map Prod.fst else s.map Prod.fst ++ [p] := by
  induction s with
  | nil => simp [writeEntry]
  | cons head rest ih =>
    obtain ⟨k, e⟩ := head
    by_cases hk : k = p
    · subst hk
      simp [writeEntry]
    · have hne : ¬ (p = k) := fun hpk => hk hpk.symm
      by_cases hm : p ∈ rest.map Prod.fst
      · simp [writeEntry, hk, ih, hm, hne]
      · simp [writeEntry, hk, ih, hm, hne]

/-- writeEntry preserves distinctness of names. -/
theorem keysNodup_writeEntry {s : Store} (p t : String)
    (h : keysNodup s) : keysNodup (writeEntry s p t) := by
  unfold keysNodup
  rw [keys_writeEntry]
  by_cases hm : p ∈ s.map Prod.fst
  · simpa [hm] using h
  · rw [if_neg hm, List.nodup_append]
    refine ⟨h, List.nodup_singleton p, fun x hx hxp => ?_⟩
    rw [List.mem_singleton] at hxp
    subst hxp
    exact hm hx

/-- removeEntry keeps a sublist of the directory. -/
theorem removeEntry_sublist (s : Store) (p : String) :
    List.Sublist (removeEntry s p) s := by
  induction s with
  | nil => simp [removeEntry]
  | cons head rest ih =>
    obtain ⟨k, e⟩ := head
    by_cases hk : k = p
    · simp [removeEntry, hk]
    · simpa [removeEntry, hk] using ih.cons₂ (k, e)

/-- removeEntry preserves distinctness of names. -/
theorem keysNodup_removeEntry {s : Store} (p : String)
    (h : keysNodup s) : keysNodup (removeEntry s p) :=
  List.Nodup.sublist (List.Sublist.map Prod.fst (removeEntry_sublist s p)) h

/-- Appending the fixed ".txt" suffix is injective on names. -/
theorem notePath_inj {n m : String} (h : notePath n = notePath m) : n = m := by
  obtain ⟨ln⟩ := n
  obtain ⟨lm⟩ := m
  unfold notePath at h
  have hd : ln ++ ".txt".data = lm ++ ".txt".data := by
    simpa [String.append] using congrArg String.data h
  exact congrArg String.mk (List.append_cancel_right hd)

/-- A false existsSync means no entry. -/
theorem findEntry_eq_none_of_exists_false {s : Store} {p : String}
    (h : existsSync s p = false) : findEntry s p = none := by
  cases hfe : findEntry s p with
  | none => rfl
  | some e => simp [existsSync, hfe] at h

/-- A successful read pins the entry to a regular file with that text. -/
theorem findEntry_of_readFile {s : Store} {p t : String}
    (h : readFileSync s p = some t) : findEntry s p = some (Entry.file t) := by
  unfold readFileSync at h
  cases hfe : findEntry s p with
  | none => rw [hfe] at h; simp at h
  | some e =>
    cases e with
    | file t3 => rw [hfe] at h; simp at h; rw [h]
    | dir => rw [hfe] at h; simp at h

/-- POST /write on an absent name: 201 and the note appended. -/
theorem postWrite_success {s : Store} {n t : String}
    (h : existsSync s (notePath n) = false) :
    postWrite s (some n) (some t) =
      (⟨201, "Note created"⟩, writeEntry s (notePath n) t) := by
  have hf := findEntry_eq_none_of_exists_false h
  simp [postWrite, jsString, existsSync, hf, writeFileSync]

/-- The store after POST /write is the old store or the note written at
notePath n. -/
theorem postWrite_store_shape (s : Store) (n t : String) :
    (postWrite s (some n) (some t)).2 = s ∨
    (postWrite s (some n) (some t)).2 = writeEntry s (notePath n) t := by
  cases hfe : findEntry s (notePath n) with
  | some e =>
    have hex : existsSync s (notePath n) = true := by simp [existsSync, hfe]
    left
    simp [postWrite, jsString, hex]
  | none =>
    have hex : existsSync s (notePath n) = false := by simp [existsSync, hfe]
    right
    simp [postWrite, jsString, hex, writeFileSync, hfe]

/-- The store after PUT /notes/:name is the old store or the body written at
notePath n. -/
theorem putNote_store_shape (s : Store) (n b : String) :
    (putNote s n b).2 = s ∨ (putNote s n b).2 = writeEntry s (notePath n) b := by
  cases hfe : findEntry s (notePath n) with
  | none => left; simp [putNote, existsSync, hfe]
  | some e =>
    have hex : existsSync s (notePath n) = true := by simp [existsSync, hfe]
    cases e with
    | file t3 => right; simp [putNote, existsSync, hex, writeFileSync, hfe]
    | dir => left; simp [putNote, existsSync, hex, writeFileSync, hfe]

/-- The store after DELETE /notes/:name is the old store or the entry at
notePath n removed. -/
theorem deleteNote_store_shape (s : Store) (n : String) :
    (deleteNote s n).2 = s ∨ (deleteNote s n).2 = removeEntry s (notePath n) := by
  cases hfe : findEntry s (notePath n) with
  | none => left; simp [deleteNote, existsSync, hfe]
  | some e =>
    have hex : existsSync s (notePath n) = true := by simp [existsSync, hfe]
    cases e with
    | file t3 => right; simp [deleteNote, existsSync, hex, unlinkSync, hfe]
    | dir => left; simp [deleteNote, existsSync, hex, unlinkSync, hfe]

/-- Claim C1: for every valid note name n and content string t, starting from
a store with no file for n, POST /write succeeds with 201 "Note created" and
stores the note at notePath n, and a subsequent GET /notes/:name answers 200
with exactly t. -/
theorem C1_create_then_read (s : Store) (n t : String)
    (h : existsSync s (notePath n) = false) :
    postWrite s (some n) (some t) =
      (⟨201, "Note created"⟩, writeEntry s (notePath n) t) ∧
    getNote (writeEntry s (notePath n) t) n =
      (⟨200, t⟩, writeEntry s (notePath n) t) := by
  refine ⟨postWrite_success h, ?_⟩
  simp [getNote, existsSync, readFileSync, findEntry_writeEntry_self]

/-- Witness for C1 at the empty store, name "foo", content "hello". -/
theorem C1_witness :
    existsSync [] (notePath "foo") = false ∧
    (postWrite [] (some "foo") (some "hello") =
      (⟨201, "Note created"⟩, writeEntry [] (notePath "foo") "hello") ∧
    getNote (writeEntry [] (notePath "foo") "hello") "foo" =
      (⟨200, "hello"⟩, writeEntry [] (notePath "foo") "hello")) :=
  ⟨by decide, C1_create_then_read [] "foo" "hello" (by decide)⟩

/-- Claim C2: after a successful create of n with t, a second create of n
answers 400 "Note already exists", leaves the store unchanged, and the stored
content for n remains exactly t. -/
theorem C2_duplicate_create (s : Store) (n t t2 : String)
    (h : existsSync s (notePath n) = false) :
    postWrite (postWrite s (some n) (some t)).2 (some n) (some t2) =
      (⟨400, "Note already exists"⟩, (postWrite s (some n) (some t)).2) ∧
    readFileSync (postWrite s (some n) (some t)).2 (notePath n) = some t := by
  rw [postWrite_success h]
  constructor
  · simp [postWrite, jsString, existsSync, findEntry_writeEntry_self]
  · simp [readFileSync, findEntry_writeEntry_self]

/-- Witness for C2 at the empty store, name "dup", contents "a" then "b". -/
theorem C2_witness :
    existsSync [] (notePath "dup") = false ∧
    (postWrite (postWrite [] (some "dup") (some "a")).2 (some "dup") (some "b") =
      (⟨400, "Note already exists"⟩, (postWrite [] (some "dup") (some "a")).2) ∧
    readFileSync (postWrite [] (some "dup") (some "a")).2 (notePath "dup") =
      some "a") :=
  ⟨by decide, C2_duplicate_create [] "dup" "a" "b" (by decide)⟩

/-- Claim C3: PUT /notes/:name on an existing note of content t answers 200
"Note updated" and fully replaces the content: a subsequent read returns
exactly t2, and never the concatenation of t and t2 when t is non-empty. -/
theorem C3_update_replaces (s : Store) (n t t2 : String)
    (h : readFileSync s (notePath n) = some t) :
    putNote s n t2 = (⟨200, "Note updated"⟩, writeEntry s (notePath n) t2) ∧
    readFileSync (putNote s n t2).2 (notePath n) = some t2 ∧
    (t ≠ "" → readFileSync (putNote s n t2).2 (notePath n) ≠ some (t ++ t2)) := by
  have hf := findEntry_of_readFile h
  have hput : putNote s n t2 =
      (⟨200, "Note updated"⟩, writeEntry s (notePath n) t2) := by
    simp [putNote, existsSync, hf, writeFileSync]
  refine ⟨hput, ?_, ?_⟩
  · rw [hput]
    simp [readFileSync, findEntry_writeEntry_self]
  · intro hne hcontra
    rw [hput] at hcontra
    simp [readFileSync, findEntry_writeEntry_self] at hcontra
    have hlen := congrArg String.length hcontra
    rw [String.length_append] at hlen
    have h0 : t.length = 0 := by omega
    apply hne
    obtain ⟨lt⟩ := t
    simp [String.length] at h0
    subst h0
    rfl

/-- Witness for C3 at a one-note store, updating "foo" from "hi" to "yo". -/
theorem C3_witness :
    readFileSync [("foo.txt", Entry.file "hi")] (notePath "foo") = some "hi" ∧
    (putNote [("foo.txt", Entry.file "hi")] "foo" "yo" =
      (⟨200, "Note updated"⟩,
        writeEntry [("foo.txt", Entry.file "hi")] (notePath "foo") "yo") ∧
    readFileSync (putNote [("foo.txt", Entry.file "hi")] "foo" "yo").2
      (notePath "foo") = some "yo" ∧
    ("hi" ≠ "" →
      readFileSync (putNote [("foo.txt", Entry.file "hi")] "foo" "yo").2
        (notePath "foo") ≠ some ("hi" ++ "yo"))) :=
  ⟨by decide, C3_update_replaces [("foo.txt", Entry.file "hi")] "foo" "hi" "yo"
    (by decide)⟩

/-- Claim C4: on an absent name each of GET, PUT and DELETE answers 404
"Not Found" and leaves the store unchanged; after a successful DELETE of an
existing note, a subsequent GET answers 404 and a second DELETE answers 404,
both leaving the store unchanged. -/
theorem C4_not_found_and_delete (s : Store) (n t b : String)
    (hnd : keysNodup s) :
    (existsSync s (notePath n) = false →
      getNote s n = (⟨404, "Not Found"⟩, s) ∧
      putNote s n b = (⟨404, "Not Found"⟩, s) ∧
      deleteNote s n = (⟨404, "Not Found"⟩, s)) ∧
    (readFileSync s (notePath n) = some t →
      deleteNote s n = (⟨200, "Note deleted"⟩, removeEntry s (notePath n)) ∧
      getNote (removeEntry s (notePath n)) n =
        (⟨404, "Not Found"⟩, removeEntry s (notePath n)) ∧
      deleteNote (removeEntry s (notePath n)) n =
        (⟨404, "Not Found"⟩, removeEntry s (notePath n))) := by
  constructor
  · intro h
    simp [getNote, putNote, deleteNote, h]
  · intro h
    have hf := findEntry_of_readFile h
    have hrm := findEntry_removeEntry_self (notePath n) hnd
    refine ⟨?_, ?_, ?_⟩
    · simp [deleteNote, existsSync, hf, unlinkSync]
    · simp [getNote, existsSync, hrm]
    · simp [deleteNote, existsSync, hrm]

/-- Witness for C4 at a one-note store with name "foo" and content "hi". -/
theorem C4_witness :
    keysNodup [("foo.txt", Entry.file "hi")] ∧
    ((existsSync [("foo.txt", Entry.file "hi")] (notePath "foo") = false →
      getNote [("foo.txt", Entry.file "hi")] "foo" =
        (⟨404, "Not Found"⟩, [("foo.txt", Entry.file "hi")]) ∧
      putNote [("foo.txt", Entry.file "hi")] "foo" "b" =
        (⟨404, "Not Found"⟩, [("foo.txt", Entry.file "hi")]) ∧
      deleteNote [("foo.txt", Entry.file "hi")] "foo" =
        (⟨404, "Not Found"⟩, [("foo.txt", Entry.file "hi")])) ∧
    (readFileSync [("foo.txt", Entry.file "hi")] (notePath "foo") = some "hi" →
      deleteNote [("foo.txt", Entry.file "hi")] "foo" =
        (⟨200, "Note deleted"⟩,
          removeEntry [("foo.txt", Entry.file "hi")] (notePath "foo")) ∧
      getNote (removeEntry [("foo.txt", Entry.file "hi")] (notePath "foo")) "foo" =
        (⟨404, "Not Found"⟩,
          removeEntry [("foo.txt", Entry.file "hi")] (notePath "foo")) ∧
      deleteNote (removeEntry [("foo.txt", Entry.file "hi")] (notePath "foo")) "foo" =
        (⟨404, "Not Found"⟩,
          removeEntry [("foo.txt", Entry.file "hi")] (notePath "foo")))) :=
  ⟨by decide, C4_not_found_and_delete [("foo.txt", Entry.file "hi")] "foo" "hi" "b"
    (by decide)⟩

/-- Claim C5: GET /notes answers 200 and returns a pair of name and text for
every regular file whose base name starts with neither '.' nor '_', no pair
for any other entry, and the empty array on an empty cache directory. -/
theorem C5_list_contents (s : Store) :
    (∀ f t, (f, Entry.file t) ∈ s → startsWithChar f '.' = false →
      startsWithChar f '_' = false → (parseName f, t) ∈ listNotes s) ∧
    (∀ p, p ∈ listNotes s → ∃ f t, (f, Entry.file t) ∈ s ∧
      startsWithChar f '.' = false ∧ startsWithChar f '_' = false ∧
      p = (parseName f, t)) ∧
    (getNotesList s).1 = 200 ∧
    getNotesList ([] : Store) = (200, []) := by
  refine ⟨?_, ?_, rfl, rfl⟩
  · intro f t hmem hdot hund
    unfold listNotes
    exact List.mem_filterMap.mpr ⟨(f, Entry.file t), hmem, by simp [hdot, hund]⟩
  · intro p hp
    unfold listNotes at hp
    obtain ⟨⟨f, e⟩, hmem, hf⟩ := List.mem_filterMap.mp hp
    cases e with
    | dir => simp at hf
    | file t =>
      have hf2 : (if ((!startsWithChar f '.') && (!startsWithChar f '_')) = true
          then some (parseName f, t) else none) = some p := hf
      by_cases hc : ((!startsWithChar f '.') && (!startsWithChar f '_')) = true
      · rw [if_pos hc] at hf2
        rw [Bool.and_eq_true, Bool.not_eq_true', Bool.not_eq_true'] at hc
        exact ⟨f, t, hmem, hc.1, hc.2, (Option.some_inj.mp hf2).symm⟩
      · rw [if_neg hc] at hf2
        simp at hf2

/-- Witness for C5 at a two-entry store with one hidden file. -/
theorem C5_witness :
    ("a.txt", Entry.file "x") ∈
      ([("a.txt", Entry.file "x"), (".h", Entry.file "y")] : Store) ∧
    startsWithChar "a.txt" '.' = false ∧ startsWithChar "a.txt" '_' = false ∧
    (parseName "a.txt", "x") ∈
      listNotes [("a.txt", Entry.file "x"), (".h", Entry.file "y")] :=
  ⟨by decide, by decide, by decide,
    (C5_list_contents [("a.txt", Entry.file "x"), (".h", Entry.file "y")]).1
      "a.txt" "x" (by decide) (by decide) (by decide)⟩

/-- Claim C6: every operation preserves the layout invariant that at most one
file exists per distinct name, reads change nothing, a successful create
stores exactly the raw text at notePath n, and a successful update stores
exactly the raw body at notePath n. -/
theorem C6_layout_invariant (s : Store) (n t b : String) (h : keysNodup s) :
    keysNodup (postWrite s (some n) (some t)).2 ∧
    keysNodup (putNote s n b).2 ∧
    keysNodup (deleteNote s n).2 ∧
    (getNote s n).2 = s ∧
    (existsSync s (notePath n) = false →
      readFileSync (postWrite s (some n) (some t)).2 (notePath n) = some t) ∧
    (∀ t0, readFileSync s (notePath n) = some t0 →
      readFileSync (putNote s n b).2 (notePath n) = some b) := by
  refine ⟨?_, ?_, ?_, ?_, ?_, ?_⟩
  · rcases postWrite_store_shape s n t with hs | hs <;> rw [hs]
    · exact h
    · exact keysNodup_writeEntry (notePath n) t h
  · rcases putNote_store_shape s n b with hs | hs <;> rw [hs]
    · exact h
    · exact keysNodup_writeEntry (notePath n) b h
  · rcases deleteNote_store_shape s n with hs | hs <;> rw [hs]
    · exact h
    · exact keysNodup_removeEntry (notePath n) h
  · unfold getNote
    cases hfe : findEntry s (notePath n) with
    | none => simp [existsSync, hfe]
    | some e => cases e <;> simp [existsSync, hfe, readFileSync]
  · intro hex
    rw [postWrite_success hex]
    simp [readFileSync, findEntry_writeEntry_self]
  · intro t0 h0
    have hf := findEntry_of_readFile h0
    simp [putNote, existsSync, hf, writeFileSync, readFileSync,
      findEntry_writeEntry_self]

/-- Witness for C6 at a one-note store with name "foo". -/
theorem C6_witness :
    keysNodup [("foo.txt", Entry.file "hi")] ∧
    (keysNodup (postWrite [("foo.txt", Entry.file "hi")] (some "n") (some "t")).2 ∧
    keysNodup (putNote [("foo.txt", Entry.file "hi")] "n" "b").2 ∧
    keysNodup (deleteNote [("foo.txt", Entry.file "hi")] "n").2 ∧
    (getNote [("foo.txt", Entry.file "hi")] "n").2 = [("foo.txt", Entry.file "hi")] ∧
    (existsSync [("foo.txt", Entry.file "hi")] (notePath "n") = false →
      readFileSync (postWrite [("foo.txt", Entry.file "hi")] (some "n") (some "t")).2
        (notePath "n") = some "t") ∧
    (∀ t0, readFileSync [("foo.txt", Entry.file "hi")] (notePath "n") = some t0 →
      readFileSync (putNote [("foo.txt", Entry.file "hi")] "n" "b").2
        (notePath "n") = some "b")) :=
  ⟨by decide, C6_layout_invariant [("foo.txt", Entry.file "hi")] "n" "t" "b"
    (by decide)⟩

/-- Claim C9: every non-hidden regular file is listed under the name produced
by path.parse, the base name with its final extension removed, whatever the
extension is: a file x.md is listed under x, and x.txt and x.md both yield
entries named x, so listing is not restricted to .txt files. -/
theorem C9_list_strips_final_extension (s : Store) (f t : String)
    (hmem : (f, Entry.file t) ∈ s) (hdot : startsWithChar f '.' = false)
    (hund : startsWithChar f '_' = false) :
    (parseName f, t) ∈ listNotes s ∧
    parseName "x.md" = "x" ∧
    parseName "x.tar.gz" = "x.tar" ∧
    listNotes [("x.txt", Entry.file "a"), ("x.md", Entry.file "b")] =
      [("x", "a"), ("x", "b")] := by
  refine ⟨?_, by decide, by decide, by decide⟩
  unfold listNotes
  exact List.mem_filterMap.mpr ⟨(f, Entry.file t), hmem, by simp [hdot, hund]⟩

/-- Witness for C9 at a store holding only the Markdown file y.md. -/
theorem C9_witness :
    ("y.md", Entry.file "c") ∈ ([("y.md", Entry.file "c")] : Store) ∧
    startsWithChar "y.md" '.' = false ∧ startsWithChar "y.md" '_' = false ∧
    ((parseName "y.md", "c") ∈ listNotes [("y.md", Entry.file "c")] ∧
    parseName "x.md" = "x" ∧
    parseName "x.tar.gz" = "x.tar" ∧
    listNotes [("x.txt", Entry.file "a"), ("x.md", Entry.file "b")] =
      [("x", "a"), ("x", "b")]) :=
  ⟨by decide, by decide, by decide,
    C9_list_strips_final_extension [("y.md", Entry.file "c")] "y.md" "c"
      (by decide) (by decide) (by decide)⟩

/-- writeEntryP leaves every other resolved path unchanged. -/
theorem findEntryP_writeEntryP_ne (fs : PathStore) {p q : List String}
    (t : String) (hq : q ≠ p) :
    findEntryP (writeEntryP fs p t) q = findEntryP fs q := by
  induction fs with
  | nil => simp [writeEntryP, findEntryP, Ne.symm hq]
  | cons head rest ih =>
    obtain ⟨k, e⟩ := head
    by_cases hk : k = p
    · subst hk
      simp [writeEntryP, findEntryP, Ne.symm hq]
    · simp [writeEntryP, hk, findEntryP, ih]

/-- removeEntryP leaves every other resolved path unchanged. -/
theorem findEntryP_removeEntryP_ne (fs : PathStore) {p q : List String}
    (hq : q ≠ p) : findEntryP (removeEntryP fs p) q = findEntryP fs q := by
  induction fs with
  | nil => simp [removeEntryP]
  | cons head rest ih =>
    obtain ⟨k, e⟩ := head
    by_cases hk : k = p
    · subst hk
      simp [removeEntryP, findEntryP, Ne.symm hq]
    · simp [removeEntryP, hk, findEntryP, ih]

/-- The filesystem after postWriteP is the old one or the note written at the
resolved path of n. -/
theorem postWriteP_store_shape (fs : PathStore) (cs : List String)
    (n t : String) :
    (postWriteP fs cs (some n) (some t)).2 = fs ∨
    (postWriteP fs cs (some n) (some t)).2 =
      writeEntryP fs (handlerPath cs n) t := by
  cases hfe : findEntryP fs (handlerPath cs n) with
  | some e =>
    have hex : existsSyncP fs (handlerPath cs n) = true := by
      simp [existsSyncP, hfe]
    left
    simp [postWriteP, jsString, hex]
  | none =>
    have hex : existsSyncP fs (handlerPath cs n) = false := by
      simp [existsSyncP, hfe]
    right
    simp [postWriteP, jsString, hex, writeFileSyncP, hfe]

/-- The filesystem after putNoteP is the old one or the body written at the
resolved path of n. -/
theorem putNoteP_store_shape (fs : PathStore) (cs : List String)
    (n b : String) :
    (putNoteP fs cs n b).2 = fs ∨
    (putNoteP fs cs n b).2 = writeEntryP fs (handlerPath cs n) b := by
  cases hfe : findEntryP fs (handlerPath cs n) with
  | none => left; simp [putNoteP, existsSyncP, hfe]
  | some e =>
    have hex : existsSyncP fs (handlerPath cs n) = true := by
      simp [existsSyncP, hfe]
    cases e with
    | file t3 => right; simp [putNoteP, existsSyncP, hex, writeFileSyncP, hfe]
    | dir => left; simp [putNoteP, existsSyncP, hex, writeFileSyncP, hfe]

/-- The filesystem after deleteNoteP is the old one or the entry at the
resolved path of n removed. -/
theorem deleteNoteP_store_shape (fs : PathStore) (cs : List String)
    (n : String) :
    (deleteNoteP fs cs n).2 = fs ∨
    (deleteNoteP fs cs n).2 = removeEntryP fs (handlerPath cs n) := by
  cases hfe : findEntryP fs (handlerPath cs n) with
  | none => left; simp [deleteNoteP, existsSyncP, hfe]
  | some e =>
    have hex : existsSyncP fs (handlerPath cs n) = true := by
      simp [existsSyncP, hfe]
    cases e with
    | file t3 => right; simp [deleteNoteP, existsSyncP, hex, unlinkSyncP, hfe]
    | dir => left; simp [deleteNoteP, existsSyncP, hex, unlinkSyncP, hfe]

/-- Splitting a separator-free character list yields one segment. -/
theorem splitSegsAux_no_sep (l : List Char) (acc : List Char)
    (h : ∀ c ∈ l, c ≠ '/') :
    splitSegsAux l acc = [String.mk (acc.reverse ++ l)] := by
  induction l generalizing acc with
  | nil => simp [splitSegsAux]
  | cons c rest ih =>
    have hc : c ≠ '/' := h c (by simp)
    have hrest : ∀ x ∈ rest, x ≠ '/' := fun x hx => h x (by simp [hx])
    simp only [splitSegsAux, if_neg hc, ih (c :: acc) hrest]
    simp

/-- Splitting a separator-free path string yields the string itself. -/
theorem splitSegs_no_sep (s : String) (h : '/' ∉ s.data) :
    splitSegs s = [s] := by
  obtain ⟨l⟩ := s
  unfold splitSegs
  rw [splitSegsAux_no_sep l [] (fun c hc hcs => h (hcs ▸ hc))]
  simp

/-- The length of the built file name. -/
theorem notePath_len (n : String) : (notePath n).length = n.length + 4 := by
  unfold notePath
  rw [String.length_append]
  have h4 : (".txt" : String).length = 4 := by decide
  omega

/-- The built file name is never one of the special path segments. -/
theorem notePath_ne_special (n : String) :
    notePath n ≠ "" ∧ notePath n ≠ "." ∧ notePath n ≠ ".." := by
  have hlen := notePath_len n
  refine ⟨?_, ?_, ?_⟩ <;> intro h <;> rw [h] at hlen
  · rw [show ("" : String).length = 0 from by decide] at hlen
    omega
  · rw [show ("." : String).length = 1 from by decide] at hlen
    omega
  · rw [show (".." : String).length = 2 from by decide] at hlen
    omega

/-- A non-special segment is appended unchanged by normalization. -/
theorem normStep_plain (acc : List String) (seg : String)
    (h0 : seg ≠ "") (h1 : seg ≠ ".") (h2 : seg ≠ "..") :
    normStep acc seg = acc ++ [seg] := by
  unfold normStep
  rw [if_neg (by simp [h0, h1]), if_neg h2]

/-- For a separator-free name the handlers' path is the name's file placed
directly inside the normalized cache directory. -/
theorem handlerPath_plain (cs : List String) (n : String)
    (h : '/' ∉ n.data) :
    handlerPath cs n = normalizeSegs cs ++ [notePath n] := by
  have hsep : '/' ∉ (notePath n).data := by
    intro hmem
    rw [show (notePath n).data = n.data ++ (".txt" : String).data from by
      simp [notePath, String.data_append], List.mem_append] at hmem
    rcases hmem with hm | hm
    · exact h hm
    · exact absurd hm (by decide)
  unfold handlerPath joinPath
  rw [splitSegs_no_sep _ hsep]
  unfold normalizeSegs
  rw [List.foldl_append]
  simp only [List.foldl_cons, List.foldl_nil]
  obtain ⟨hn0, hn1, hn2⟩ := notePath_ne_special n
  exact normStep_plain _ _ hn0 hn1 hn2

/-- Distinct separator-free names resolve to distinct paths under the same
cache directory. -/
theorem handlerPath_inj_plain (cs : List String) {n2 m2 : String}
    (hn : '/' ∉ n2.data) (hm : '/' ∉ m2.data) (hne : n2 ≠ m2) :
    handlerPath cs n2 ≠ handlerPath cs m2 := by
  rw [handlerPath_plain cs n2 hn, handlerPath_plain cs m2 hm]
  intro heq
  have hlast := List.append_cancel_left heq
  rw [List.cons.injEq] at hlast
  exact hne (notePath_inj hlast.1)

/-- Counterexample to claim C10: the names "x/../m" and "m" are distinct, yet
path.join resolves both to cache/m.txt, so on a filesystem where the note m
holds "c", PUT /notes/x%2F..%2Fm with body "t2" answers 200 and changes the
file for the distinct name m from "c" to "t2". -/
theorem C10_counterexample :
    ("x/../m" : String) ≠ "m" ∧
    handlerPath ["cache"] "x/../m" = handlerPath ["cache"] "m" ∧
    readFileSyncP [(["cache", "m.txt"], Entry.file "c")]
      (handlerPath ["cache"] "m") = some "c" ∧
    (putNoteP [(["cache", "m.txt"], Entry.file "c")] ["cache"]
      "x/../m" "t2").1 = ⟨200, "Note updated"⟩ ∧
    readFileSyncP (putNoteP [(["cache", "m.txt"], Entry.file "c")] ["cache"]
      "x/../m" "t2").2 (handlerPath ["cache"] "m") = some "t2" := by
  decide

/-- Claim C10 amended: for every pair of names n and m whose constructed
paths path.join(cache, name + ".txt") resolve to different files, each of
create, update and delete of n leaves the entry at m's resolved path, its
existence and its content, exactly as it was; and distinct names free of
directory separators always resolve to different files, so the original
frame property holds for them. Distinct names with separators or
parent-directory segments may resolve to the same file, which the
operations then do affect. -/
theorem C10_frame_resolved (fs : PathStore) (cs : List String)
    (n m t b : String) (h : handlerPath cs n ≠ handlerPath cs m) :
    findEntryP (postWriteP fs cs (some n) (some t)).2 (handlerPath cs m) =
      findEntryP fs (handlerPath cs m) ∧
    findEntryP (putNoteP fs cs n b).2 (handlerPath cs m) =
      findEntryP fs (handlerPath cs m) ∧
    findEntryP (deleteNoteP fs cs n).2 (handlerPath cs m) =
      findEntryP fs (handlerPath cs m) ∧
    (∀ n2 m2 : String, '/' ∉ n2.data → '/' ∉ m2.data → n2 ≠ m2 →
      handlerPath cs n2 ≠ handlerPath cs m2) := by
  have hne : handlerPath cs m ≠ handlerPath cs n := Ne.symm h
  refine ⟨?_, ?_, ?_, fun n2 m2 hn2 hm2 hne2 =>
    handlerPath_inj_plain cs hn2 hm2 hne2⟩
  · rcases postWriteP_store_shape fs cs n t with hs | hs <;> rw [hs]
    exact findEntryP_writeEntryP_ne fs t hne
  · rcases putNoteP_store_shape fs cs n b with hs | hs <;> rw [hs]
    exact findEntryP_writeEntryP_ne fs b hne
  · rcases deleteNoteP_store_shape fs cs n with hs | hs <;> rw [hs]
    exact findEntryP_removeEntryP_ne fs hne

/-- Witness for the amended C10 at a two-note filesystem under cache,
operating on "a" and observing "b". -/
theorem C10_witness :
    handlerPath ["cache"] "a" ≠ handlerPath ["cache"] "b" ∧
    findEntryP (postWriteP [(["cache", "a.txt"], Entry.file "1"),
        (["cache", "b.txt"], Entry.file "2")] ["cache"]
        (some "a") (some "t")).2 (handlerPath ["cache"] "b") =
      findEntryP [(["cache", "a.txt"], Entry.file "1"),
        (["cache", "b.txt"], Entry.file "2")] (handlerPath ["cache"] "b") ∧
    findEntryP (putNoteP [(["cache", "a.txt"], Entry.file "1"),
        (["cache", "b.txt"], Entry.file "2")] ["cache"]
        "a" "b2").2 (handlerPath ["cache"] "b") =
      findEntryP [(["cache", "a.txt"], Entry.file "1"),
        (["cache", "b.txt"], Entry.file "2")] (handlerPath ["cache"] "b") ∧
    findEntryP (deleteNoteP [(["cache", "a.txt"], Entry.file "1"),
        (["cache", "b.txt"], Entry.file "2")] ["cache"]
        "a").2 (handlerPath ["cache"] "b") =
      findEntryP [(["cache", "a.txt"], Entry.file "1"),
        (["cache", "b.txt"], Entry.file "2")] (handlerPath ["cache"] "b") :=
  ⟨by decide,
    (C10_frame_resolved [(["cache", "a.txt"], Entry.file "1"),
      (["cache", "b.txt"], Entry.file "2")] ["cache"] "a" "b" "t" "b2"
      (by decide)).1,
    (C10_frame_resolved [(["cache", "a.txt"], Entry.file "1"),
      (["cache", "b.txt"], Entry.file "2")] ["cache"] "a" "b" "t" "b2"
      (by decide)).2.1,
    (C10_frame_resolved [(["cache", "a.txt"], Entry.file "1"),
      (["cache", "b.txt"], Entry.file "2")] ["cache"] "a" "b" "t" "b2"
      (by decide)).2.2.1⟩

/-- Counterexample to claim C7: POST /write with the form field note_name
absent and note present is not rejected; on an empty cache directory it
answers 201 and creates the file undefined.txt, because the undefined field
is coerced to the string "undefined" by the + ".txt" concatenation. -/
theorem C7_counterexample :
    (postWrite [] none (some "hi")).1 = ⟨201, "Note created"⟩ ∧
    (postWrite [] none (some "hi")).2 = [("undefined.txt", Entry.file "hi")] := by
  decide

/-- Claim C7 amended: POST /write performs no field-presence validation. A
missing note field makes the write throw, which the framework turns into a
500 response (or a 400 when the target file exists), and no file is created;
a missing note_name field is coerced to the string "undefined", so with note
present and undefined.txt absent the handler creates that file and answers
201. -/
theorem C7_no_field_validation (s : Store) (nn : Option String) (t : String) :
    ((postWrite s nn none).2 = s ∧
      ((postWrite s nn none).1.status = 400 ∨
        (postWrite s nn none).1.status = 500)) ∧
    (existsSync s (notePath "undefined") = false →
      postWrite s none (some t) =
        (⟨201, "Note created"⟩, writeEntry s (notePath "undefined") t)) := by
  constructor
  · unfold postWrite
    by_cases hex : existsSync s (notePath (jsString nn)) = true
    · simp [hex]
    · rw [Bool.not_eq_true] at hex
      simp [hex, writeFileSync]
  · intro h
    have hf := findEntry_eq_none_of_exists_false h
    simp [postWrite, jsString, existsSync, hf, writeFileSync]

/-- Witness for the amended C7 at the empty store. -/
theorem C7_witness :
    (((postWrite [] (some "a") none).2 = ([] : Store) ∧
      ((postWrite [] (some "a") none).1.status = 400 ∨
        (postWrite [] (some "a") none).1.status = 500)) ∧
    (existsSync [] (notePath "undefined") = false →
      postWrite [] none (some "hi") =
        (⟨201, "Note created"⟩, writeEntry [] (notePath "undefined") "hi"))) ∧
    existsSync [] (notePath "undefined") = false :=
  ⟨C7_no_field_validation [] (some "a") "hi", by decide⟩

/-- Claim C8 is violated by the code: the path the handlers build,
path.join(cache, name + ".txt"), is not confined to the cache directory. For
the name "../evil" it normalizes to a sibling of the cache directory, a path
outside it, so the operations can read, write or delete files outside the
configured cache directory. -/
theorem C8_path_traversal_escape :
    handlerPath ["cache"] "../evil" = ["evil.txt"] ∧
    insideDir ["cache"] (handlerPath ["cache"] "../evil") = false ∧
    insideDir ["cache"] (handlerPath ["cache"] "evil") = true := by
  decide

end NotesService
